import Mathlib

/-!
Formal model of the XML macro preprocessor (`lib/galaxy/util/xml_macros.py`).

The document tree is modelled as a pure inductive type `Element`; in-place
mutation of the lxml tree becomes functional update.  Python strings are
Lean `String`s, and the Python string operations used by the source
(`in`, `str.replace`, `str.split`, `str.startswith`, `str.upper`) are
modelled over `List Char` so that everything reduces in the kernel.
Python dicts (which preserve insertion order and overwrite values in
place) are modelled as association lists with explicit dict operations.
File-system access (`parse_xml` on import paths) is out of scope of the
core; the elements and paths produced by reading imported files enter the
model as explicit parameters.
-/

/-- Single-quote character as a one-character string, used to build the
error messages of the source verbatim. -/
def squote : String := String.singleton (Char.ofNat 39)

/-- First-occurrence lookup in an association list (Python `d[k]` /
`d.get(k)` for dicts with unique keys, and lxml `el.get(k)`). -/
def pyGet {κ α : Type} [DecidableEq κ] : List (κ × α) → κ → Option α
  | [], _ => none
  | (k, v) :: r, key => if key = k then some v else pyGet r key

/-- Replace the value stored at `key` (first occurrence), keeping order:
Python `d[k] = v` when `k` is already a key of `d`. -/
def pySetValue {κ α : Type} [DecidableEq κ] : List (κ × α) → κ → α → List (κ × α)
  | [], _, _ => []
  | (k, v) :: r, key, nv =>
    if key = k then (k, nv) :: r else (k, v) :: pySetValue r key nv

/-- Python dict assignment `d[k] = v`: overwrite in place if the key
exists, otherwise append at the end (insertion order preserved). -/
def pyDictInsert {κ α : Type} [DecidableEq κ] (l : List (κ × α)) (kv : κ × α) :
    List (κ × α) :=
  if (pyGet l kv.1).isSome then pySetValue l kv.1 kv.2 else l ++ [kv]

/-- Python `dict(pairs)`: build a dict by successive insertion, so a later
pair with the same key overwrites the value of an earlier one. -/
def pyDict {κ α : Type} [DecidableEq κ] (l : List (κ × α)) : List (κ × α) :=
  l.foldl pyDictInsert []

/-- Last binding of `key` in a raw pair list; characterises lookup in
`pyDict` (later entries win). -/
def lookupLast {κ α : Type} [DecidableEq κ] : List (κ × α) → κ → Option α
  | [], _ => none
  | (k, v) :: r, key =>
    match lookupLast r key with
    | some w => some w
    | none => if key = k then some v else none

/-- Substring test on character lists: Python `pat in s` for strings. -/
def isSubChars (pat : List Char) : List Char → Bool
  | [] => pat.isEmpty
  | c :: cs => pat.isPrefixOf (c :: cs) || isSubChars pat cs

/-- Python `pat in s` for strings. -/
def pyIn (pat s : String) : Bool := isSubChars pat.data s.data

/-- Left-to-right, non-overlapping replacement on character lists
(Python `str.replace` semantics; an empty pattern is left alone — the
source never replaces an empty token name without first raising).  The
fuel argument makes the recursion structural; every step consumes at
least one character, so with fuel = length of the string the zero-fuel
case is never reached. -/
def replaceChars (pat repl : List Char) : Nat → List Char → List Char
  | _, [] => []
  | 0, s => s
  | fuel + 1, c :: cs =>
    if pat ≠ [] ∧ pat.isPrefixOf (c :: cs) then
      repl ++ replaceChars pat repl fuel ((c :: cs).drop pat.length)
    else
      c :: replaceChars pat repl fuel cs

/-- Python `s.replace(pat, repl)`. -/
def pyReplace (s pat repl : String) : String :=
  ⟨replaceChars pat.data repl.data s.data.length s.data⟩

/-- Python `", ".join(strings)`. -/
def joinComma : List String → String
  | [] => ""
  | [s] => s
  | s :: r => s ++ ", " ++ joinComma r

/-- Python `s.upper()` (ASCII, as used by the source for token names). -/
def upperStr (s : String) : String := ⟨s.data.map Char.toUpper⟩

/-- Split a character list on a separator character. -/
def splitChar (sep : Char) : List Char → List (List Char)
  | [] => [[]]
  | x :: xs =>
    let r := splitChar sep xs
    if x = sep then [] :: r
    else
      match r with
      | [] => [[x]]
      | h :: t => (x :: h) :: t

/-- Python `s.split(",")`. -/
def splitOnComma (s : String) : List String :=
  (splitChar ',' s.data).map (fun l => ⟨l⟩)

/-- Python `s.startswith(pre)`. -/
def pyStartsWith (s pre : String) : Bool := pre.data.isPrefixOf s.data

/-- Python `s[n:]` for a nonnegative `n`. -/
def pyDropChars (s : String) (n : Nat) : String := ⟨s.data.drop n⟩

/-- The document tree: tag, ordered attributes, text content (lxml
`.text`, `none` when absent), ordered children.  Tail texts are not used
by any code path the claims touch and are omitted. -/
inductive Element : Type where
  | mk (tag : String) (attrib : List (String × String)) (text : Option String)
      (children : List Element)

mutual

/-- Boolean equality on elements (structural). -/
def beqEl : Element → Element → Bool
  | .mk t1 a1 x1 c1, .mk t2 a2 x2 c2 =>
    t1 == t2 && a1 == a2 && x1 == x2 && beqElList c1 c2

/-- Boolean equality on lists of elements. -/
def beqElList : List Element → List Element → Bool
  | [], [] => true
  | c :: cs, d :: ds => beqEl c d && beqElList cs ds
  | _, _ => false

end

mutual

/-- `beqEl` decides equality. -/
theorem beqEl_iff : ∀ a b : Element, beqEl a b = true ↔ a = b
  | .mk t1 a1 x1 c1, .mk t2 a2 x2 c2 => by
    simp only [beqEl, Bool.and_eq_true, beq_iff_eq]
    constructor
    · rintro ⟨⟨⟨h1, h2⟩, h3⟩, h4⟩
      subst h1; subst h2; subst h3
      exact congrArg (Element.mk t1 a1 x1) ((beqElList_iff c1 c2).mp h4)
    · rintro h
      injection h with h1 h2 h3 h4
      subst h1; subst h2; subst h3; subst h4
      exact ⟨⟨⟨rfl, rfl⟩, rfl⟩, (beqElList_iff c1 c1).mpr rfl⟩

/-- `beqElList` decides equality of element lists. -/
theorem beqElList_iff : ∀ a b : List Element, beqElList a b = true ↔ a = b
  | [], [] => by simp [beqElList]
  | [], _ :: _ => by simp [beqElList]
  | _ :: _, [] => by simp [beqElList]
  | a :: as, b :: bs => by
    simp only [beqElList, Bool.and_eq_true]
    rw [beqEl_iff a b, beqElList_iff as bs]
    constructor
    · rintro ⟨rfl, rfl⟩; rfl
    · intro h
      injection h with h1 h2
      exact ⟨h1, h2⟩

end

instance : DecidableEq Element :=
  fun a b => decidable_of_iff (beqEl a b = true) (beqEl_iff a b)

/-- Tag accessor. -/
def Element.tag : Element → String
  | .mk t _ _ _ => t

/-- Attribute-list accessor. -/
def Element.attrib : Element → List (String × String)
  | .mk _ a _ _ => a

/-- Text accessor. -/
def Element.text : Element → Option String
  | .mk _ _ x _ => x

/-- Children accessor. -/
def Element.children : Element → List Element
  | .mk _ _ _ c => c

/-- lxml `el.get(key)`: attribute lookup. -/
def Element.get (e : Element) (key : String) : Option String :=
  pyGet e.attrib key

/-- lxml `el.find(tag)`: first direct child with the given tag. -/
def Element.find (e : Element) (t : String) : Option Element :=
  e.children.find? (fun c => c.tag = t)

/-- lxml `el.findall(tag)`: all direct children with the given tag, in
document order. -/
def Element.findall (e : Element) (t : String) : List Element :=
  e.children.filter (fun c => c.tag = t)

/-- Subtree at a child-index path (`[]` is the element itself). -/
def getAt : Element → List Nat → Option Element
  | e, [] => some e
  | e, i :: p =>
    match e.children.get? i with
    | none => none
    | some c => getAt c p

/-- Functional update: replace the subtree at a child-index path.  This
models mutating one node of the tree in place. -/
def setAt : Element → List Nat → Element → Element
  | _, [], r => r
  | .mk t a x cs, i :: p, r =>
    match cs.get? i with
    | none => .mk t a x cs
    | some c => .mk t a x (cs.set i (setAt c p r))

/-- Replace the element at a child-index path by a list of elements
spliced into its parent at the same position (the net effect of
`_xml_replace`: insert copies of the targets after the query node, then
remove the query node). -/
def spliceAt : Element → List Nat → List Element → Element
  | e, [], _ => e
  | .mk t a x cs, i :: p, repl =>
    match p with
    | [] => .mk t a x (cs.take i ++ repl ++ cs.drop (i + 1))
    | _ :: _ =>
      match cs.get? i with
      | none => .mk t a x cs
      | some c => .mk t a x (cs.set i (spliceAt c p repl))

/-- Source `expand_nested_tokens`, inner loop (`for current_token_name,
current_token_value in tokens.items()`): walk the table keys in order,
reading current values live; a value containing the outer token name is
either the self-reference error or is rewritten in place.  On error the
table state at raise time is returned alongside the message, modelling
that the Python dict has already been mutated in place. -/
def nestedInner (tname : String) : List String → List (String × String) →
    Except (String × List (String × String)) (List (String × String))
  | [], tbl => .ok tbl
  | k :: ks, tbl =>
    let cv := (pyGet tbl k).getD ("")
    if pyIn tname cv then
      if tname = k then
        .error ("Token " ++ squote ++ tname ++ squote ++ " cannot contain itself", tbl)
      else
        nestedInner tname ks
          (pySetValue tbl k (pyReplace cv tname ((pyGet tbl tname).getD (""))))
    else nestedInner tname ks tbl

/-- Source `expand_nested_tokens`, outer loop (`for token_name in
tokens.keys()`). -/
def nestedOuter : List String → List (String × String) →
    Except (String × List (String × String)) (List (String × String))
  | [], tbl => .ok tbl
  | n :: ns, tbl =>
    match nestedInner n (tbl.map Prod.fst) tbl with
    | .error e => .error e
    | .ok tbl2 => nestedOuter ns tbl2

/-- Source `expand_nested_tokens(tokens)`: resolve inter-token references
by a single pass over all (outer name, inner entry) pairs, mutating the
table in place; a token whose value contains its own name raises.  The
error case carries the table state at raise time (the dict of the caller,
already partially substituted). -/
def expandNestedTokens (tokens : List (String × String)) :
    Except (String × List (String × String)) (List (String × String)) :=
  nestedOuter (tokens.map Prod.fst) tokens

/-- Source `_expand_tokens_str(s, tokens)`: fold over the table in order,
replacing each token name present in the string by its value. -/
def expandTokensStr (s : String) (tokens : List (String × String)) : String :=
  tokens.foldl (fun acc kv => if pyIn kv.1 acc then pyReplace acc kv.1 kv.2 else acc) s

mutual

/-- Source `_expand_tokens_for_el(element, tokens)`: rewrite the text
(when truthy), every attribute value, and recursively every child. -/
def expandTokensForEl (element : Element) (tokens : List (String × String)) : Element :=
  match element with
  | .mk t a x cs =>
    let x2 := match x with
      | none => none
      | some s => if s = "" then some s else some (expandTokensStr s tokens)
    .mk t (a.map (fun kv => (kv.1, expandTokensStr kv.2 tokens))) x2
      (expandTokensList cs tokens)

/-- Source `_expand_tokens(elements, tokens)` applied to a child list. -/
def expandTokensList (elements : List Element) (tokens : List (String × String)) :
    List Element :=
  match elements with
  | [] => []
  | c :: cs => expandTokensForEl c tokens :: expandTokensList cs tokens

end

mutual

/-- Source `_expand_yield_statements(macro_def, expand_el)`: every
descendant tagged `yield` is replaced, in place among its own siblings,
by (copies of) the children of the invoking `expand` element. -/
def expandYieldsEl (repl : List Element) : Element → Element
  | .mk t a x cs => .mk t a x (expandYieldsList repl cs)

/-- Yield replacement on a sibling list. -/
def expandYieldsList (repl : List Element) : List Element → List Element
  | [] => []
  | c :: cs =>
    if c.tag = "yield" then repl ++ expandYieldsList repl cs
    else expandYieldsEl repl c :: expandYieldsList repl cs

end

mutual

/-- Path (child-index sequence) of the first proper descendant tagged
`expand`, in document order: source `element.find(".//expand")`. -/
def findExpandPath : Element → Option (List Nat)
  | .mk _ _ _ cs => findExpandPathList cs 0

/-- Scan a sibling list for the first `expand` element (each sibling is
inspected before its own descendants, and a whole subtree before the next
sibling — document order). -/
def findExpandPathList : List Element → Nat → Option (List Nat)
  | [], _ => none
  | c :: cs, i =>
    if c.tag = "expand" then some [i]
    else
      match findExpandPath c with
      | some p => some (i :: p)
      | none => findExpandPathList cs (i + 1)

end

mutual

/-- The macro-pruning pass of `load_with_references` (`for el in
root.xpath("//macro"): if el.get("type") != "template":
el.getparent().remove(el)`) on the strict descendants of the element it
is applied to: drop every descendant tagged `macro` whose `type`
attribute is not `template`, together with its subtree, anywhere in the
tree; recurse into everything that is kept.  The `//macro` XPath also
selects a macro-tagged root element, on which the source raises an
AttributeError (`getparent()` is `None`); `loadWithRefsModel` checks
that case before calling this function. -/
def removeNonTemplateEl : Element → Element
  | .mk t a x cs => .mk t a x (removeNonTemplateList cs)

/-- Pruning pass on a sibling list. -/
def removeNonTemplateList : List Element → List Element
  | [] => []
  | c :: cs =>
    if c.tag = "macro" ∧ ¬ c.get ("type") = some ("template") then
      removeNonTemplateList cs
    else removeNonTemplateEl c :: removeNonTemplateList cs

end

mutual

/-- No descendant of `e` is a `macro` element whose type is not
`template`. -/
def noBadMacroBelow : Element → Bool
  | .mk _ _ _ cs => noBadMacroList cs

/-- List version of `noBadMacroBelow`, also checking the listed elements
themselves. -/
def noBadMacroList : List Element → Bool
  | [] => true
  | c :: cs =>
    (!(c.tag = "macro" : Bool) || (c.get ("type") = some ("template") : Bool)) &&
      noBadMacroBelow c && noBadMacroList cs

end

mutual

/-- No descendant of `e` has the given tag. -/
def treeNoTagBelow (t : String) : Element → Bool
  | .mk _ _ _ cs => treeNoTagList t cs

/-- List version of `treeNoTagBelow`, also checking the listed elements
themselves. -/
def treeNoTagList (t : String) : List Element → Bool
  | [] => true
  | c :: cs => !(c.tag = t : Bool) && treeNoTagBelow t c && treeNoTagList t cs

end

mutual

/-- Does the token name `k` occur in the text or any attribute value of
`e` or of a descendant? -/
def treeHasTok (k : String) : Element → Bool
  | .mk _ a x cs =>
    pyIn k (x.getD ("")) || a.any (fun kv => pyIn k kv.2) || treeHasTokList k cs

/-- List version of `treeHasTok`. -/
def treeHasTokList (k : String) : List Element → Bool
  | [] => false
  | c :: cs => treeHasTok k c || treeHasTokList k cs

end

/-- Default value of an xml-macro parameter: either the
`REQUIRED_PARAMETER` sentinel or a string. -/
inductive ParamDefault : Type where
  | required
  | val (s : String)
deriving DecidableEq

/-- Source class `XmlMacroDef`: the macro element plus its parameter
table (name to (quote character, default)). -/
structure XmlMacroDef : Type where
  element : Element
  parameters : List (String × (String × ParamDefault))

/-- Source `XmlMacroDef.__init__(el)`: `tokens="a,b"` declares required
parameters, `token_XXX="d"` declares an optional parameter `XXX` with
default `d` (so `token_quote` itself also declares an optional parameter
named `quote`), and `token_quote` sets the placeholder quote character
(default `@`). -/
def XmlMacroDef.ofEl (el : Element) : XmlMacroDef :=
  let tokenQuote := (el.get ("token_quote")).getD ("@")
  let toks : List (String × ParamDefault) :=
    el.attrib.foldl
      (fun acc kv =>
        if kv.1 = "tokens" then
          acc ++ (splitOnComma kv.2).map (fun t => (t, ParamDefault.required))
        else if pyStartsWith kv.1 ("token_") then
          acc ++ [(pyDropChars kv.1 6, ParamDefault.val kv.2)]
        else acc)
      []
  let parameters :=
    toks.foldl (fun ps nd => pyDictInsert ps (nd.1, (tokenQuote, nd.2))) []
  ⟨el, parameters⟩

/-- Loop body of `XmlMacroDef.macro_tokens`: for each parameter take the
placeholder attribute when present, else the default; a required
parameter with no attribute raises; the token name is the parameter name
upper-cased and wrapped in the quote character. -/
def macroTokensGo (attrs : List (String × String)) :
    List (String × (String × ParamDefault)) → List (String × String) →
    Except String (List (String × String))
  | [], acc => .ok acc
  | (key, (wrapChar, defaultVal)) :: rest, acc =>
    let tv : ParamDefault :=
      match pyGet attrs key with
      | some v => ParamDefault.val v
      | none => defaultVal
    match tv with
    | ParamDefault.required =>
      .error ("Failed to expand macro - missing required parameter [" ++ key ++ "].")
    | ParamDefault.val v =>
      macroTokensGo attrs rest (pyDictInsert acc (wrapChar ++ upperStr key ++ wrapChar, v))

/-- Source `XmlMacroDef.macro_tokens(expand_el)`. -/
def macroTokensOf (d : XmlMacroDef) (expandEl : Element) :
    Except String (List (String × String)) :=
  macroTokensGo expandEl.attrib d.parameters []

/-- The catalog built from xml-kind macro elements; keys are the `name`
attributes (a missing name is a `None` dict key in Python). -/
abbrev Catalog := List (Option String × XmlMacroDef)

/-- Message of the assertion at line 142 of the source. -/
def noAttrMsg : String :=
  "Attempted to expand macro with no " ++ squote ++ "macro" ++ squote ++
    " attribute defined."

/-- All keys present (`None` keys would make Python `", ".join` raise a
TypeError). -/
def allNamedKeys : List (Option String) → Option (List String)
  | [] => some []
  | some k :: r => (allNamedKeys r).map (fun l => k :: l)
  | none :: _ => none

/-- Message of the assertion at line 143 of the source. -/
def unknownMacroMsg (name : String) (keys : List String) : String :=
  "No macro named " ++ name ++ " found, known macros are " ++ joinComma keys ++ "."

/-- Source `_expand_macro(element, expand_el, macros, tokens)` acting on
the placeholder at path `p` of `e`.  `rec` is the recursive
`_expand_macros` pass applied to each child of the deep-copied macro
element (deep copy is the identity on pure values).  After yield
splicing, recursive expansion and macro-local token substitution, the
placeholder is replaced in its parent by the processed children of the
macro element. -/
def expandStepWith (rec : Element → Except String Element) (macrosD : Catalog)
    (e : Element) (p : List Nat) : Except String Element :=
  match getAt e p with
  | none => .error ("LookupError")
  | some expandEl =>
    match expandEl.get ("macro") with
    | none => .error noAttrMsg
    | some name =>
      match pyGet macrosD (some name) with
      | none =>
        match allNamedKeys (macrosD.map Prod.fst) with
        | none => .error ("TypeError")
        | some keys => .error (unknownMacroMsg name keys)
      | some mdef =>
        let expanded1 := expandYieldsEl expandEl.children mdef.element
        match (expanded1.children).mapM rec with
        | .error msg => .error msg
        | .ok cs2 =>
          match macroTokensOf mdef expandEl with
          | .error msg => .error msg
          | .ok mtoks =>
            let cs3 := if mtoks.isEmpty then cs2 else expandTokensList cs2 mtoks
            .ok (spliceAt e p cs3)

/-- Source `_expand_macros` main loop: repeatedly locate the first
`expand` placeholder (document order) and expand it in place, until none
remain.  The source has no cycle guard; `fuel` bounds the number of loop
iterations, and running out models the `RecursionError` a cyclic macro
graph produces. -/
def expandLoopF : Nat → Catalog → List (String × String) → Element →
    Except String Element
  | 0, _, _, _ => .error ("RecursionError")
  | fuel + 1, macrosD, tokens, e =>
    match findExpandPath e with
    | none => .ok e
    | some p =>
      match expandStepWith (fun c => expandLoopF fuel macrosD tokens c) macrosD e p with
      | .error msg => .error msg
      | .ok e2 => expandLoopF fuel macrosD tokens e2

/-- Source `_load_embedded_macros(macros_el, xml_base_dir)`: generic
`macro` children get a default `type="xml"`; shorthand `template`, `xml`
and `token` children are retagged `macro` with their tag as `type`. -/
def loadEmbeddedMacros (macrosEl : Element) : List Element :=
  let base :=
    (macrosEl.findall ("macro")).map
      (fun m =>
        if (m.get ("type")).isSome then m
        else Element.mk m.tag (pyDictInsert m.attrib ("type", "xml")) m.text m.children)
  let typed :=
    (["template", "xml", "token"]).foldl
      (fun acc t =>
        acc ++ (macrosEl.findall t).map
          (fun m => Element.mk ("macro") (pyDictInsert m.attrib ("type", t)) m.text m.children))
      []
  base ++ typed

/-- Source `_load_macros(macros_el, xml_base_dir)`: imported macro
elements first, then the embedded ones.  The imported elements are read
from the file system by `_load_imported_macros`; they enter the model as
a parameter. -/
def loadMacrosList (importedMacroEls : List Element) (macrosEl : Element) :
    List Element :=
  importedMacroEls ++ loadEmbeddedMacros macrosEl

/-- Source `_xml_set_children(element, new_children)`. -/
def setChildren (e : Element) (newChildren : List Element) : Element :=
  Element.mk e.tag e.attrib e.text newChildren

/-- Replace the first child with the given tag (the container that
`root.find("macros")` located and `_xml_set_children` mutated). -/
def replaceFirstTaggedList (t : String) (newChild : Element) :
    List Element → List Element
  | [] => []
  | c :: cs =>
    if c.tag = t then newChild :: cs else c :: replaceFirstTaggedList t newChild cs

/-- In-tree effect of mutating the macro container. -/
def replaceFirstTagged (e : Element) (t : String) (newChild : Element) : Element :=
  Element.mk e.tag e.attrib e.text (replaceFirstTaggedList t newChild e.children)

/-- Source `_import_macros(root, path)`: when a macro container exists,
its children are replaced by the merged (imported + embedded) macro list
and the transitive import paths are returned; without a container the
function falls through and returns Python `None`. -/
def importMacrosModel (importedEls : List Element) (importedPaths : List String)
    (root : Element) : Element × Option (List String) :=
  match root.find ("macros") with
  | none => (root, none)
  | some m =>
    let m2 := setChildren m (loadMacrosList importedEls m)
    (replaceFirstTagged root ("macros") m2, some importedPaths)

/-- Source `_macros_of_type(root, type, el_func)`: the `macro` children
of the container whose `type` matches, as a dict keyed by their `name`
attribute (later entries overwrite earlier ones). -/
def macrosOfType {α : Type} (root : Element) (ty : String) (f : Element → α) :
    List (Option String × α) :=
  match root.find ("macros") with
  | none => []
  | some m =>
    pyDict
      (((m.findall ("macro")).filter (fun el => el.get ("type") = some ty)).map
        (fun el => (el.get ("name"), f el)))

/-- Source `lambda el: el.text or ''`. -/
def tokenText (el : Element) : String := (el.text).getD ("")

/-- All dict keys are actual strings. -/
def namedList {α : Type} : List (Option String × α) → Option (List (String × α))
  | [] => some []
  | (some k, v) :: r => (namedList r).map (fun l => (k, v) :: l)
  | (none, _) :: _ => none

/-- Token collection of `load_with_references` (lines 21-22): gather the
token macros and resolve nested tokens.  A token macro without a `name`
attribute gives a `None` dict key, on which `expand_nested_tokens`
raises a TypeError (`None in str`); the model returns that as an error. -/
def pipelineTokensOf (root1 : Element) : Except String (List (String × String)) :=
  match namedList (macrosOfType root1 ("token") tokenText) with
  | none => .error ("TypeError")
  | some tokens0 =>
    match expandNestedTokens tokens0 with
    | .error e => .error e.1
    | .ok t => .ok t

/-- Source `load_with_references(path)` from the parsed root onward: the
resolution of imports, token collection and nested resolution, macro
expansion, pruning of non-template macro elements, global token
substitution; returns the processed tree and the import paths (Python
`None` when there is no macro container).  The pruning loop iterates
`root.xpath("//macro")`, an absolute path that also selects the root
element itself: when the root is a macro element of non-template kind,
`el.getparent()` is `None` and the source raises an AttributeError
before removing anything; the model returns that error. -/
def loadWithRefsModel (fuel : Nat) (importedEls : List Element)
    (importedPaths : List String) (root : Element) :
    Except String (Element × Option (List String)) :=
  let ip := importMacrosModel importedEls importedPaths root
  match pipelineTokensOf ip.1 with
  | .error msg => .error msg
  | .ok tokens =>
    let macrosD : Catalog := macrosOfType ip.1 ("xml") XmlMacroDef.ofEl
    let step2 : Except String Element :=
      if macrosD.isEmpty ∧ tokens.isEmpty then .ok ip.1
      else expandLoopF fuel macrosD tokens ip.1
    match step2 with
    | .error msg => .error msg
    | .ok root2 =>
      if root2.tag = "macro" ∧ ¬ root2.get ("type") = some "template" then
        .error ("AttributeError")
      else
        .ok (expandTokensForEl (removeNonTemplateEl root2) tokens, ip.2)

/-- Source `_imported_macro_paths_from_el(macros_el)`: the text of each
direct `import` child, in order (`None` for an empty import element). -/
def importedMacroPathsFromEl : Option Element → List (Option String)
  | none => []
  | some m => (m.findall ("import")).map Element.text

/-- Source `imported_macro_paths(root)`. -/
def importedMacroPaths (root : Element) : List (Option String) :=
  importedMacroPathsFromEl (root.find ("macros"))

/-! ### General lemmas about the dict and string models -/

/-- A list is a prefix of itself followed by anything. -/
theorem isPrefixOf_append_self : ∀ (p t : List Char), p.isPrefixOf (p ++ t) = true
  | [], _ => by simp [List.isPrefixOf]
  | c :: cs, t => by simp [List.isPrefixOf, isPrefixOf_append_self cs t]

/-- A pattern occurs in any string that contains it contiguously. -/
theorem isSubChars_middle : ∀ (pre pat suf : List Char),
    isSubChars pat (pre ++ pat ++ suf) = true := by
  intro pre pat suf
  induction pre with
  | nil =>
    cases pat with
    | nil =>
      cases suf with
      | nil => rfl
      | cons a as => simp [isSubChars, List.isPrefixOf]
    | cons p ps =>
      have h := isPrefixOf_append_self (p :: ps) suf
      simp only [List.cons_append, List.nil_append] at h ⊢
      simp [isSubChars, h]
  | cons c cs ih =>
    simp only [List.cons_append, List.append_assoc] at ih ⊢
    simp [isSubChars, ih]

/-- `pyIn` holds whenever the string decomposes around the pattern. -/
theorem pyIn_of_data_middle (k s : String) (pre suf : List Char)
    (h : s.data = pre ++ k.data ++ suf) : pyIn k s = true := by
  have hm := isSubChars_middle pre k.data suf
  simp only [pyIn, h]
  exact hm

/-- The self-reference error message contains the token name. -/
theorem pyIn_self_msg (n : String) :
    pyIn n ("Token " ++ squote ++ n ++ squote ++ " cannot contain itself") = true := by
  apply pyIn_of_data_middle n _ ("Token ".data ++ squote.data)
      (squote.data ++ " cannot contain itself".data)
  simp [String.data_append]

/-- Lookup after a dict value update. -/
theorem pyGet_pySetValue {κ α : Type} [DecidableEq κ] :
    ∀ (l : List (κ × α)) (k : κ) (v : α) (key : κ),
      pyGet (pySetValue l k v) key =
        if key = k then (pyGet l k).map (fun _ => v) else pyGet l key := by
  intro l k v
  induction l with
  | nil => intro key; simp [pySetValue, pyGet]
  | cons p r ih =>
    intro key
    obtain ⟨a, b⟩ := p
    by_cases hka : k = a
    · subst hka
      by_cases hk : key = k <;> simp [pySetValue, pyGet, hk]
    · by_cases hk : key = a
      · have hkk : ¬ key = k := fun hkk => hka (hkk.symm.trans hk)
        have hak : ¬ a = k := fun hh => hka hh.symm
        simp [pySetValue, pyGet, hka, hk, hkk, hak]
      · simp [pySetValue, pyGet, hka, hk, ih key]

/-- Lookup in an appended association list. -/
theorem pyGet_append {κ α : Type} [DecidableEq κ] :
    ∀ (l1 l2 : List (κ × α)) (key : κ),
      pyGet (l1 ++ l2) key =
        match pyGet l1 key with
        | some v => some v
        | none => pyGet l2 key := by
  intro l1 l2 key
  induction l1 with
  | nil => simp [pyGet]
  | cons p r ih =>
    obtain ⟨a, b⟩ := p
    by_cases hk : key = a <;> simp [pyGet, hk, ih]

/-- Lookup after a dict insertion. -/
theorem pyGet_pyDictInsert {κ α : Type} [DecidableEq κ] (l : List (κ × α))
    (kv : κ × α) (key : κ) :
    pyGet (pyDictInsert l kv) key = if key = kv.1 then some kv.2 else pyGet l key := by
  unfold pyDictInsert
  by_cases hs : (pyGet l kv.1).isSome
  · simp only [hs, if_true]
    rw [pyGet_pySetValue]
    by_cases hk : key = kv.1
    · obtain ⟨w, hw⟩ := Option.isSome_iff_exists.mp hs
      simp [hk, hw]
    · simp [hk]
  · have hnone : pyGet l kv.1 = none := Option.not_isSome_iff_eq_none.mp hs
    simp only [hnone, Option.isSome_none, Bool.false_eq_true, if_false]
    rw [pyGet_append]
    by_cases hk : key = kv.1
    · subst hk
      simp [hnone, pyGet]
    · cases hg : pyGet l key <;> simp [pyGet, hk, hg]

/-- Folding dict insertions: lookup sees the last binding in the pair
list, else whatever the accumulator held. -/
theorem pyGet_foldl_pyDictInsert {κ α : Type} [DecidableEq κ] :
    ∀ (l : List (κ × α)) (acc : List (κ × α)) (key : κ),
      pyGet (l.foldl pyDictInsert acc) key =
        match lookupLast l key with
        | some v => some v
        | none => pyGet acc key := by
  intro l
  induction l with
  | nil => intro acc key; simp [lookupLast]
  | cons kv r ih =>
    intro acc key
    simp only [List.foldl_cons, lookupLast]
    rw [ih]
    cases hr : lookupLast r key with
    | some w => simp
    | none =>
      rw [pyGet_pyDictInsert]
      by_cases hk : key = kv.1 <;> simp [hk]

/-- Lookup in a Python dict built from a pair list: the last binding
wins. -/
theorem pyGet_pyDict {κ α : Type} [DecidableEq κ] (l : List (κ × α)) (key : κ) :
    pyGet (pyDict l) key = lookupLast l key := by
  rw [pyDict, pyGet_foldl_pyDictInsert]
  cases lookupLast l key <;> simp [pyGet]

/-- Last-binding lookup in an appended list prefers the second list. -/
theorem lookupLast_append {κ α : Type} [DecidableEq κ] :
    ∀ (l1 l2 : List (κ × α)) (key : κ),
      lookupLast (l1 ++ l2) key =
        match lookupLast l2 key with
        | some w => some w
        | none => lookupLast l1 key := by
  intro l1 l2 key
  induction l1 with
  | nil => simp [lookupLast]; cases lookupLast l2 key <;> simp
  | cons p r ih =>
    obtain ⟨a, b⟩ := p
    simp only [List.cons_append, lookupLast, List.append_eq]
    rw [ih]
    cases h2 : lookupLast l2 key <;> cases hr : lookupLast r key <;> simp

/-- A key that appears in the pair list has a last binding. -/
theorem lookupLast_isSome_of_mem {κ α : Type} [DecidableEq κ] :
    ∀ (l : List (κ × α)) (key : κ), key ∈ l.map Prod.fst →
      (lookupLast l key).isSome = true := by
  intro l key
  induction l with
  | nil => intro h; simp at h
  | cons p r ih =>
    intro h
    obtain ⟨a, b⟩ := p
    simp only [List.map_cons, List.mem_cons] at h
    simp only [lookupLast]
    cases hr : lookupLast r key with
    | some w => simp
    | none =>
      rcases h with h | h
      · simp [h]
      · have := ih h
        rw [hr] at this
        simp at this

/-- Lookup through a value-mapping of an association list. -/
theorem pyGet_map_value {α β : Type} :
    ∀ (a : List (String × α)) (f : α → β) (key : String),
      pyGet (a.map (fun p => (p.1, f p.2))) key = (pyGet a key).map f := by
  intro a f key
  induction a with
  | nil => simp [pyGet]
  | cons p r ih =>
    by_cases hk : key = p.1 <;> simp [pyGet, hk, ih]

/-- A member of a string list occurs contiguously in its comma join. -/
theorem joinComma_mem_decomp :
    ∀ (keys : List String) (k : String), k ∈ keys →
      ∃ pre suf : List Char, (joinComma keys).data = pre ++ k.data ++ suf := by
  intro keys
  induction keys with
  | nil => intro k h; simp at h
  | cons s r ih =>
    intro k h
    rcases List.mem_cons.mp h with h | h
    · subst h
      cases r with
      | nil => exact ⟨[], [], by simp [joinComma]⟩
      | cons s2 r2 =>
        refine ⟨[], (", ".data ++ (joinComma (s2 :: r2)).data), ?_⟩
        simp [joinComma, String.data_append]
    · cases r with
      | nil => simp at h
      | cons s2 r2 =>
        obtain ⟨pre, suf, hps⟩ := ih k h
        refine ⟨s.data ++ ", ".data ++ pre, suf, ?_⟩
        simp [joinComma, String.data_append, hps]

/-- The unknown-macro error message contains the unknown name. -/
theorem pyIn_unknown_name (name : String) (keys : List String) :
    pyIn name (unknownMacroMsg name keys) = true := by
  apply pyIn_of_data_middle name _ ("No macro named ".data)
      ((" found, known macros are " ++ joinComma keys ++ ".").data)
  simp [unknownMacroMsg, String.data_append]

/-- The unknown-macro error message contains every known macro name. -/
theorem pyIn_unknown_keys (name : String) (keys : List String) (k : String)
    (hk : k ∈ keys) : pyIn k (unknownMacroMsg name keys) = true := by
  obtain ⟨pre, suf, hps⟩ := joinComma_mem_decomp keys k hk
  apply pyIn_of_data_middle k _
      (("No macro named " ++ name ++ " found, known macros are ").data ++ pre)
      (suf ++ ".".data)
  simp [unknownMacroMsg, String.data_append, hps]

/-- Substituting an empty token table is the identity on strings. -/
theorem expandTokensStr_nil (s : String) : expandTokensStr s [] = s := rfl

/-- A table none of whose names occur in `s` leaves `s` unchanged. -/
theorem expandTokensStr_absent :
    ∀ (tokens : List (String × String)) (s : String),
      (∀ kv ∈ tokens, pyIn kv.1 s = false) → expandTokensStr s tokens = s := by
  intro tokens
  induction tokens with
  | nil => intro s _; rfl
  | cons kv rest ih =>
    intro s h
    have h1 := h kv (List.mem_cons_self kv rest)
    have h2 : ∀ p ∈ rest, pyIn p.1 s = false := fun p hp => h p (List.mem_cons_of_mem kv hp)
    simp only [expandTokensStr, List.foldl_cons, h1, Bool.false_eq_true, if_false]
    exact ih s h2

/-- Attribute rewriting with pointwise-identity values is the identity. -/
theorem mapAttr_id :
    ∀ (tokens : List (String × String)) (a : List (String × String)),
      (∀ p ∈ a, expandTokensStr p.2 tokens = p.2) →
      a.map (fun p => (p.1, expandTokensStr p.2 tokens)) = a := by
  intro tokens a
  induction a with
  | nil => intro _; rfl
  | cons p r ih =>
    intro h
    have h1 := h p (List.mem_cons_self p r)
    have h2 := fun q hq => h q (List.mem_cons_of_mem p hq)
    simp [h1, ih h2]

mutual

/-- Substituting an empty token table is the identity on elements. -/
theorem expandTokensForEl_nil : ∀ e : Element, expandTokensForEl e [] = e
  | .mk t a x cs => by
    simp only [expandTokensForEl]
    rw [mapAttr_id [] a (fun p _ => rfl), expandTokensList_nil cs]
    cases x with
    | none => rfl
    | some s => by_cases hs : s = "" <;> simp [hs, expandTokensStr]

/-- Substituting an empty token table is the identity on element lists. -/
theorem expandTokensList_nil : ∀ cs : List Element, expandTokensList cs [] = cs
  | [] => rfl
  | c :: cs => by
    simp only [expandTokensList]
    rw [expandTokensForEl_nil c, expandTokensList_nil cs]

end

mutual

/-- A tree without `macro`-tagged descendants is untouched by the
pruning pass. -/
theorem removeNonTemplateEl_id :
    ∀ e : Element, treeNoTagBelow ("macro") e = true → removeNonTemplateEl e = e
  | .mk t a x cs => fun h => by
    simp only [treeNoTagBelow] at h
    simp only [removeNonTemplateEl]
    rw [removeNonTemplateList_id cs h]

/-- List version of `removeNonTemplateEl_id`. -/
theorem removeNonTemplateList_id :
    ∀ cs : List Element, treeNoTagList ("macro") cs = true → removeNonTemplateList cs = cs
  | [] => fun _ => rfl
  | c :: cs => fun h => by
    simp only [treeNoTagList, Bool.and_eq_true, Bool.not_eq_true',
      decide_eq_false_iff_not] at h
    obtain ⟨⟨h1, h2⟩, h3⟩ := h
    have hcond : ¬ (c.tag = "macro" ∧ ¬ c.get ("type") = some ("template")) :=
      fun hc => h1 hc.1
    simp only [removeNonTemplateList, if_neg hcond]
    rw [removeNonTemplateEl_id c h2, removeNonTemplateList_id cs h3]

end

/-- The pruning pass preserves tags. -/
theorem removeNonTemplateEl_tag (e : Element) :
    (removeNonTemplateEl e).tag = e.tag := by
  cases e; rfl

/-- The pruning pass preserves attributes. -/
theorem removeNonTemplateEl_get (e : Element) (key : String) :
    (removeNonTemplateEl e).get key = e.get key := by
  cases e; rfl

mutual

/-- After the pruning pass no non-template macro element remains. -/
theorem noBad_removeEl : ∀ e : Element, noBadMacroBelow (removeNonTemplateEl e) = true
  | .mk t a x cs => by
    simp only [removeNonTemplateEl, noBadMacroBelow]
    exact noBad_removeList cs

/-- List version of `noBad_removeEl`. -/
theorem noBad_removeList :
    ∀ cs : List Element, noBadMacroList (removeNonTemplateList cs) = true
  | [] => rfl
  | c :: cs => by
    simp only [removeNonTemplateList]
    by_cases hc : c.tag = "macro" ∧ ¬ c.get ("type") = some ("template")
    · rw [if_pos hc]
      exact noBad_removeList cs
    · rw [if_neg hc]
      simp only [noBadMacroList, Bool.and_eq_true]
      refine ⟨⟨?_, noBad_removeEl c⟩, noBad_removeList cs⟩
      rw [removeNonTemplateEl_tag, removeNonTemplateEl_get]
      by_cases h1 : c.tag = "macro"
      · have h2 : c.get ("type") = some ("template") := by
          by_contra hx
          exact hc ⟨h1, hx⟩
        simp [h2]
      · simp [h1]

end

mutual

/-- Token substitution cannot create a non-template macro element when no
token name occurs in the string `template`. -/
theorem noBad_expandTokensEl :
    ∀ (e : Element) (tokens : List (String × String)),
      (∀ kv ∈ tokens, pyIn kv.1 ("template") = false) → noBadMacroBelow e = true →
      noBadMacroBelow (expandTokensForEl e tokens) = true
  | .mk t a x cs => fun tokens htk h => by
    simp only [noBadMacroBelow] at h
    simp only [expandTokensForEl, noBadMacroBelow]
    exact noBad_expandTokensList cs tokens htk h

/-- List version of `noBad_expandTokensEl`. -/
theorem noBad_expandTokensList :
    ∀ (cs : List Element) (tokens : List (String × String)),
      (∀ kv ∈ tokens, pyIn kv.1 ("template") = false) → noBadMacroList cs = true →
      noBadMacroList (expandTokensList cs tokens) = true
  | [] => fun _ _ _ => rfl
  | c :: cs => fun tokens htk h => by
    simp only [noBadMacroList, Bool.and_eq_true] at h
    obtain ⟨⟨h1, h2⟩, h3⟩ := h
    simp only [expandTokensList, noBadMacroList, Bool.and_eq_true]
    refine ⟨⟨?_, noBad_expandTokensEl c tokens htk h2⟩,
      noBad_expandTokensList cs tokens htk h3⟩
    have htag : (expandTokensForEl c tokens).tag = c.tag := by cases c; rfl
    have hget : (expandTokensForEl c tokens).get ("type") =
        (c.get ("type")).map (fun v => expandTokensStr v tokens) := by
      cases c with
      | mk tc ac xc csc =>
        simp only [expandTokensForEl, Element.get, Element.attrib]
        exact pyGet_map_value ac (fun v => expandTokensStr v tokens) "type"
    rw [htag, hget]
    simp only [Bool.or_eq_true, Bool.not_eq_true', decide_eq_false_iff_not,
      decide_eq_true_eq] at h1 ⊢
    rcases h1 with h1 | h1
    · exact Or.inl h1
    · refine Or.inr ?_
      rw [h1]
      have hts : expandTokensStr ("template") tokens = "template" :=
        expandTokensStr_absent tokens ("template") htk
      simp [hts]

end

mutual

/-- Rewriting a tree in which no token name occurs is the identity. -/
theorem expandTokensForEl_absent :
    ∀ (e : Element) (tokens : List (String × String)),
      (∀ kv ∈ tokens, treeHasTok kv.1 e = false) → expandTokensForEl e tokens = e
  | .mk t a x cs => fun tokens h => by
    have hparts : ∀ kv ∈ tokens,
        pyIn kv.1 (x.getD ("")) = false ∧
          (a.any fun p => pyIn kv.1 p.2) = false ∧ treeHasTokList kv.1 cs = false := by
      intro kv hkv
      have hh := h kv hkv
      simp only [treeHasTok, Bool.or_eq_false_iff] at hh
      exact ⟨hh.1.1, hh.1.2, hh.2⟩
    have hattrid : ∀ p ∈ a, expandTokensStr p.2 tokens = p.2 := by
      intro p hp
      apply expandTokensStr_absent
      intro kv hkv
      have hany := (hparts kv hkv).2.1
      rw [List.any_eq_false] at hany
      exact Bool.eq_false_iff.mpr (hany p hp)
    have hcs : ∀ kv ∈ tokens, treeHasTokList kv.1 cs = false :=
      fun kv hkv => (hparts kv hkv).2.2
    simp only [expandTokensForEl]
    rw [mapAttr_id tokens a hattrid, expandTokensList_absent cs tokens hcs]
    cases x with
    | none => rfl
    | some s =>
      by_cases hs : s = ""
      · simp [hs]
      · have hsub : expandTokensStr s tokens = s := by
          apply expandTokensStr_absent
          intro kv hkv
          have := (hparts kv hkv).1
          simpa using this
        simp [hs, hsub]

/-- List version of `expandTokensForEl_absent`. -/
theorem expandTokensList_absent :
    ∀ (cs : List Element) (tokens : List (String × String)),
      (∀ kv ∈ tokens, treeHasTokList kv.1 cs = false) → expandTokensList cs tokens = cs
  | [] => fun _ _ => rfl
  | c :: cs => fun tokens h => by
    have hc : ∀ kv ∈ tokens, treeHasTok kv.1 c = false := by
      intro kv hkv
      have := h kv hkv
      simp only [treeHasTokList, Bool.or_eq_false_iff] at this
      exact this.1
    have hcs : ∀ kv ∈ tokens, treeHasTokList kv.1 cs = false := by
      intro kv hkv
      have := h kv hkv
      simp only [treeHasTokList, Bool.or_eq_false_iff] at this
      exact this.2
    simp only [expandTokensList]
    rw [expandTokensForEl_absent c tokens hc, expandTokensList_absent cs tokens hcs]

end

/-- A kept template macro child survives pruning (as its own pruned
subtree), in the pruned child list of the parent. -/
theorem removeNonTemplateList_mem :
    ∀ (cs : List Element) (c : Element), c ∈ cs → c.tag = "macro" →
      c.get ("type") = some ("template") →
      removeNonTemplateEl c ∈ removeNonTemplateList cs := by
  intro cs
  induction cs with
  | nil => intro c h; simp at h
  | cons d ds ih =>
    intro c h htag hty
    rcases List.mem_cons.mp h with h | h
    · subst h
      have hcond : ¬ (c.tag = "macro" ∧ ¬ c.get ("type") = some ("template")) :=
        fun hc => hc.2 hty
      simp only [removeNonTemplateList, if_neg hcond]
      exact List.mem_cons_self _ _
    · by_cases hd : d.tag = "macro" ∧ ¬ d.get ("type") = some ("template")
      · simp only [removeNonTemplateList, if_pos hd]
        exact ih c h htag hty
      · simp only [removeNonTemplateList, if_neg hd]
        exact List.mem_cons_of_mem _ (ih c h htag hty)

/-- Decidable equality for the result type of fallible operations. -/
instance {ε α : Type} [DecidableEq ε] [DecidableEq α] : DecidableEq (Except ε α) :=
  fun x y =>
    match x, y with
    | .ok a, .ok b =>
      if h : a = b then isTrue (by rw [h]) else
        isFalse (fun hh => h (Except.ok.inj hh))
    | .error a, .error b =>
      if h : a = b then isTrue (by rw [h]) else
        isFalse (fun hh => h (Except.error.inj hh))
    | .ok _, .error _ => isFalse (fun hh => Except.noConfusion hh)
    | .error _, .ok _ => isFalse (fun hh => Except.noConfusion hh)

/-! ### Claim theorems -/

/-- First child supplied by the placeholder in the two-yield example. -/
def c1ChildA : Element := Element.mk ("c1") [] none []

/-- Second child supplied by the placeholder in the two-yield example. -/
def c1ChildB : Element := Element.mk ("c2") [] none []

/-- A yield marker. -/
def yieldEl : Element := Element.mk ("yield") [] none []

/-- Macro template with two yield markers in different subtrees (the
doctest of `_expand_yield_statements`). -/
def twoYieldMacroBody : Element :=
  Element.mk ("xml") [("name", "test")] none
    [Element.mk ("A") [] none [yieldEl], Element.mk ("B") [] none [yieldEl]]

/-- Expected expansion of `twoYieldMacroBody` with children
`[c1ChildA, c1ChildB]`. -/
def twoYieldExpanded : Element :=
  Element.mk ("xml") [("name", "test")] none
    [Element.mk ("A") [] none [c1ChildA, c1ChildB],
     Element.mk ("B") [] none [c1ChildA, c1ChildB]]

/-- Claim C1: every yield marker in the copied template subtree is
replaced in place among its own siblings by copies of the invoking
children of the placeholder, in their original relative order; in the
two-yield example both markers receive copies of `[c1, c2]`, and the two
copies are structurally independent — mutating (functionally updating) a
node of the first copy leaves the second copy unchanged. -/
theorem c1_yield_marker_replacement :
    (∀ (repl pre post : List Element) (y : Element), y.tag = "yield" →
      expandYieldsList repl (pre ++ y :: post) =
        expandYieldsList repl pre ++ repl ++ expandYieldsList repl post)
    ∧ expandYieldsEl [c1ChildA, c1ChildB] twoYieldMacroBody = twoYieldExpanded
    ∧ (∀ m : Element,
        getAt (setAt twoYieldExpanded [0, 0] m) [1, 0] = getAt twoYieldExpanded [1, 0]
          ∧ getAt twoYieldExpanded [1, 0] = some c1ChildA) := by
  refine ⟨?_, by decide, fun m => ⟨rfl, rfl⟩⟩
  intro repl pre post y hy
  induction pre with
  | nil => simp [expandYieldsList, hy]
  | cons c cs ih =>
    simp only [List.cons_append, expandYieldsList]
    by_cases hc : c.tag = "yield"
    · simp [hc, ih, List.append_assoc]
    · simp [hc, ih]

/-- Witness for C1 at concrete inputs: a yield between siblings is
replaced in place, and the second copy holds the first supplied child. -/
theorem c1_yield_marker_replacement_witness :
    expandYieldsList [c1ChildA] ([Element.mk ("blah") [] none []] ++ yieldEl :: []) =
      expandYieldsList [c1ChildA] [Element.mk ("blah") [] none []] ++ [c1ChildA] ++
        expandYieldsList [c1ChildA] []
    ∧ getAt twoYieldExpanded [1, 0] = some c1ChildA :=
  ⟨c1_yield_marker_replacement.1 [c1ChildA] [Element.mk ("blah") [] none []] [] yieldEl rfl,
   (c1_yield_marker_replacement.2.2 (Element.mk ("mut") [] none [])).2⟩

/-- Claim C2 counterexample: in the table mapping `@A@` to `@B@` and `@B@` to `x @B@ y`,
the token `@B@` contains itself and `expand_nested_tokens` does raise the
self-containment error naming it, but only after having already
substituted into `@A@`: the table at raise time differs from the input
table, so the self-reference is not detected before any substitution
occurs. -/
theorem c2_self_token_counterexample :
    expandNestedTokens [("@A@", "@B@"), ("@B@", "x @B@ y")] =
      .error ("Token " ++ squote ++ "@B@" ++ squote ++ " cannot contain itself",
        [("@A@", "x @B@ y"), ("@B@", "x @B@ y")])
    ∧ ([("@A@", "x @B@ y"), ("@B@", "x @B@ y")] : List (String × String)) ≠
        [("@A@", "@B@"), ("@B@", "x @B@ y")] := by
  exact ⟨by decide, by decide⟩

/-- Claim C2 as amended: when the first token of the table contains its
own name, `expand_nested_tokens` raises the fatal error naming that token
(the message contains the token name) with the table untouched — no
substitution has been performed.  (For a self-reference later in the
table, substitutions made earlier in the pass remain in the table, as the
counterexample shows, and the substitution of an earlier token can even
rewrite the self-reference away.) -/
theorem c2_self_token_amended :
    ∀ (n v : String) (rest : List (String × String)), pyIn n v = true →
      expandNestedTokens ((n, v) :: rest) =
        .error ("Token " ++ squote ++ n ++ squote ++ " cannot contain itself",
          (n, v) :: rest)
        ∧ pyIn n ("Token " ++ squote ++ n ++ squote ++ " cannot contain itself") = true := by
  intro n v rest h
  constructor
  · simp [expandNestedTokens, nestedOuter, nestedInner, pyGet, h]
  · exact pyIn_self_msg n

/-- Witness for the amended C2 at a concrete self-referential table. -/
theorem c2_self_token_amended_witness :
    expandNestedTokens [("@A@", "x @A@ y")] =
      .error ("Token " ++ squote ++ "@A@" ++ squote ++ " cannot contain itself",
        [("@A@", "x @A@ y")])
    ∧ pyIn ("@A@") ("Token " ++ squote ++ "@A@" ++ squote ++ " cannot contain itself") = true :=
  c2_self_token_amended ("@A@") "x @A@ y" [] (by decide)

/-- The macro element of claim C3: `<xml name="m" tokens="FOO"/>` (after
type normalisation). -/
def c3MacroEl : Element :=
  Element.mk ("macro") [("name", "m"), ("tokens", "FOO"), ("type", "xml")] none []

/-- Template body of claim C3 with `@FOO@` in a text node, an attribute
value, and a nested child attribute. -/
def c3Body : Element :=
  Element.mk ("inputs") [("label", "param @FOO@")] (some ("text @FOO@ here"))
    [Element.mk ("child") [("x", "@FOO@@FOO@")] none []]

/-- Claim C3 counterexample: the parameter lookup is case-exact, so a
placeholder carrying `foo="bar"` (lower case) does not satisfy the
required parameter `FOO`: expansion raises the missing-parameter error
instead of substituting `@FOO@` with `bar` as the claim states. -/
theorem c3_required_parameter_counterexample :
    macroTokensOf (XmlMacroDef.ofEl c3MacroEl)
        (Element.mk ("expand") [("macro", "m"), ("foo", "bar")] none []) =
      .error ("Failed to expand macro - missing required parameter [FOO].") := by
  decide

/-- Claim C3 as amended: the attribute consulted is named exactly like
the declared token (`FOO`): a placeholder without a `FOO` attribute
raises the missing-parameter error naming `FOO`; a placeholder with
`FOO="bar"` yields the token table mapping `@FOO@` to `bar`, whose application
replaces every occurrence of `@FOO@` throughout the template body. -/
theorem c3_required_parameter_amended :
    (∀ el : Element, pyGet el.attrib ("FOO") = none →
      macroTokensOf (XmlMacroDef.ofEl c3MacroEl) el =
        .error ("Failed to expand macro - missing required parameter [FOO]."))
    ∧ (∀ el : Element, pyGet el.attrib ("FOO") = some ("bar") →
      macroTokensOf (XmlMacroDef.ofEl c3MacroEl) el = .ok [("@FOO@", "bar")])
    ∧ expandTokensForEl c3Body [("@FOO@", "bar")] =
        Element.mk ("inputs") [("label", "param bar")] (some ("text bar here"))
          [Element.mk ("child") [("x", "barbar")] none []] := by
  have hp : (XmlMacroDef.ofEl c3MacroEl).parameters =
      [("FOO", ("@", ParamDefault.required))] := by decide
  refine ⟨?_, ?_, by decide⟩
  · intro el h
    rw [macroTokensOf, hp]
    simp [macroTokensGo, h]
  · intro el h
    rw [macroTokensOf, hp]
    simp [macroTokensGo, h]
    decide

/-- Witness for the amended C3 at concrete placeholders. -/
theorem c3_required_parameter_amended_witness :
    macroTokensOf (XmlMacroDef.ofEl c3MacroEl) (Element.mk ("expand") [] none []) =
      .error ("Failed to expand macro - missing required parameter [FOO].")
    ∧ macroTokensOf (XmlMacroDef.ofEl c3MacroEl)
        (Element.mk ("expand") [("FOO", "bar")] none []) = .ok [("@FOO@", "bar")] :=
  ⟨c3_required_parameter_amended.1 (Element.mk ("expand") [] none []) (by decide),
   c3_required_parameter_amended.2.1 (Element.mk ("expand") [("FOO", "bar")] none [])
     (by decide)⟩

/-- Claim C7 counterexample: the table mapping `aa` to `a` satisfies the
proviso of the claim (no token value contains any known placeholder), yet
rewriting the text `"aaa"` once gives `"aa"` and a second pass gives
`"a"`: replacement boundaries recreate the placeholder, so tree-rewrite
is not idempotent under the stated proviso. -/
theorem c7_idempotence_counterexample :
    (∀ kv ∈ ([("aa", "a")] : List (String × String)),
      ∀ kv2 ∈ ([("aa", "a")] : List (String × String)), pyIn kv2.1 kv.2 = false)
    ∧ expandTokensForEl
        (expandTokensForEl (Element.mk ("p") [] (some ("aaa")) []) [("aa", "a")])
        [("aa", "a")] ≠
      expandTokensForEl (Element.mk ("p") [] (some ("aaa")) []) [("aa", "a")] := by
  exact ⟨by decide, by decide⟩

/-- Claim C7 as amended: re-running tree-rewrite with the same table is
the identity provided no token name occurs anywhere (text or attribute
values) in the once-rewritten tree; the original proviso — token values
free of known placeholders — is insufficient because a replacement can
recreate a placeholder across boundaries. -/
theorem c7_idempotence_amended :
    ∀ (tokens : List (String × String)) (e : Element),
      (∀ kv ∈ tokens, treeHasTok kv.1 (expandTokensForEl e tokens) = false) →
      expandTokensForEl (expandTokensForEl e tokens) tokens =
        expandTokensForEl e tokens :=
  fun tokens e h => expandTokensForEl_absent (expandTokensForEl e tokens) tokens h

/-- Witness for the amended C7 at a concrete tree and table. -/
theorem c7_idempotence_amended_witness :
    expandTokensForEl
        (expandTokensForEl (Element.mk ("p") [] (some ("x @A@ y")) []) [("@A@", "val")])
        [("@A@", "val")] =
      expandTokensForEl (Element.mk ("p") [] (some ("x @A@ y")) []) [("@A@", "val")] :=
  c7_idempotence_amended [("@A@", "val")] (Element.mk ("p") [] (some ("x @A@ y")) [])
    (by decide)

/-- The macro element of claim C10: `token_quote="$"` plus one required
token `x`. -/
def c10MacroEl : Element :=
  Element.mk ("macro")
    [("name", "m"), ("tokens", "x"), ("token_quote", "$"), ("type", "xml")] none []

/-- Claim C10: a `token_quote` attribute sets the placeholder delimiter
and additionally registers an optional parameter `quote` whose default is
the delimiter itself; every expansion therefore also substitutes the
delimiter-wrapped `QUOTE` placeholder (here `$QUOTE$`) with the delimiter
unless the placeholder supplies a `quote` attribute. -/
theorem c10_token_quote_parameter :
    (XmlMacroDef.ofEl c10MacroEl).parameters =
      [("x", ("$", ParamDefault.required)), ("quote", ("$", ParamDefault.val ("$")))]
    ∧ (∀ (el : Element) (v : String), pyGet el.attrib ("x") = some v →
        pyGet el.attrib ("quote") = none →
        macroTokensOf (XmlMacroDef.ofEl c10MacroEl) el =
          .ok [("$X$", v), ("$QUOTE$", "$")])
    ∧ (∀ (el : Element) (v q : String), pyGet el.attrib ("x") = some v →
        pyGet el.attrib ("quote") = some q →
        macroTokensOf (XmlMacroDef.ofEl c10MacroEl) el =
          .ok [("$X$", v), ("$QUOTE$", q)])
    ∧ expandTokensForEl (Element.mk ("body") [] (some ("q $QUOTE$ v $X$")) [])
        [("$X$", "v"), ("$QUOTE$", "$")] =
      Element.mk ("body") [] (some ("q $ v v")) [] := by
  have hp : (XmlMacroDef.ofEl c10MacroEl).parameters =
      [("x", ("$", ParamDefault.required)), ("quote", ("$", ParamDefault.val ("$")))] := by
    decide
  have hs1 : ("$" : String) ++ upperStr ("x") ++ "$" = "$X$" := by decide
  have hs2 : ("$" : String) ++ upperStr ("quote") ++ "$" = "$QUOTE$" := by decide
  have hne : ¬ ("$QUOTE$" : String) = "$X$" := by decide
  refine ⟨hp, ?_, ?_, by decide⟩
  · intro el v hx hq
    rw [macroTokensOf, hp]
    simp [macroTokensGo, hx, hq, hs1, hs2, pyDictInsert, pyGet, hne]
  · intro el v q hx hq
    rw [macroTokensOf, hp]
    simp [macroTokensGo, hx, hq, hs1, hs2, pyDictInsert, pyGet, hne]

/-- Witness for C10 at concrete placeholders. -/
theorem c10_token_quote_parameter_witness :
    macroTokensOf (XmlMacroDef.ofEl c10MacroEl)
        (Element.mk ("expand") [("macro", "m"), ("x", "v")] none []) =
      .ok [("$X$", "v"), ("$QUOTE$", "$")]
    ∧ macroTokensOf (XmlMacroDef.ofEl c10MacroEl)
        (Element.mk ("expand") [("macro", "m"), ("x", "v"), ("quote", "Q")] none []) =
      .ok [("$X$", "v"), ("$QUOTE$", "Q")] :=
  ⟨c10_token_quote_parameter.2.1
      (Element.mk ("expand") [("macro", "m"), ("x", "v")] none []) "v"
      (by decide) (by decide),
   c10_token_quote_parameter.2.2.1
      (Element.mk ("expand") [("macro", "m"), ("x", "v"), ("quote", "Q")] none [])
      "v" "Q" (by decide) (by decide)⟩

/-- Claim C4 counterexample: with a catalog holding only `m1`, a placeholder lacking
the `macro` attribute fails with the fixed assertion message, which does
not name the available macro `m1` — contrary to the claim that both
failure modes produce an error naming the available macro names. -/
theorem c4_missing_attr_counterexample :
    expandLoopF 1
        [(some ("m1"),
          XmlMacroDef.ofEl (Element.mk ("macro") [("name", "m1"), ("type", "xml")] none []))]
        []
        (Element.mk ("tool") [] none [Element.mk ("expand") [] none []]) =
      .error noAttrMsg
    ∧ pyIn ("m1") noAttrMsg = false := by
  exact ⟨by decide, by decide⟩

/-- Claim C4 as amended: a placeholder lacking the `macro` attribute is a
fatal error with a fixed message that does not list the catalog; a
placeholder naming an absent macro is a fatal error whose message names
the unknown macro and every available macro name (with an empty catalog
the list of names is empty); either error aborts the expansion loop. -/
theorem c4_placeholder_error_amended :
    (∀ (rec : Element → Except String Element) (macrosD : Catalog) (e el : Element)
        (p : List Nat), getAt e p = some el → el.get ("macro") = none →
        expandStepWith rec macrosD e p = .error noAttrMsg)
    ∧ (∀ (rec : Element → Except String Element) (macrosD : Catalog) (e el : Element)
        (p : List Nat) (name : String) (keys : List String),
        getAt e p = some el → el.get ("macro") = some name →
        pyGet macrosD (some name) = none →
        allNamedKeys (macrosD.map Prod.fst) = some keys →
        expandStepWith rec macrosD e p = .error (unknownMacroMsg name keys)
          ∧ pyIn name (unknownMacroMsg name keys) = true
          ∧ ∀ k ∈ keys, pyIn k (unknownMacroMsg name keys) = true)
    ∧ (∀ (fuel : Nat) (macrosD : Catalog) (tokens : List (String × String))
        (e : Element) (p : List Nat) (msg : String), findExpandPath e = some p →
        expandStepWith (fun c => expandLoopF fuel macrosD tokens c) macrosD e p =
          .error msg →
        expandLoopF (fuel + 1) macrosD tokens e = .error msg) := by
  refine ⟨?_, ?_, ?_⟩
  · intro rec macrosD e el p h1 h2
    simp [expandStepWith, h1, h2]
  · intro rec macrosD e el p name keys h1 h2 h3 h4
    exact ⟨by simp [expandStepWith, h1, h2, h3, h4], pyIn_unknown_name name keys,
      fun k hk => pyIn_unknown_keys name keys k hk⟩
  · intro fuel macrosD tokens e p msg h1 h2
    simp [expandLoopF, h1, h2]

/-- Witness for the amended C4: unknown macro name with an empty catalog
(and a nonempty token table, so the expansion loop does run). -/
theorem c4_placeholder_error_amended_witness :
    expandStepWith (fun c => expandLoopF 0 [] [("@T@", "v")] c) []
        (Element.mk ("tool") [] none [Element.mk ("expand") [("macro", "nope")] none []])
        [0] =
      .error (unknownMacroMsg ("nope") [])
    ∧ pyIn ("nope") (unknownMacroMsg ("nope") []) = true
    ∧ expandLoopF 1 [] [("@T@", "v")]
        (Element.mk ("tool") [] none [Element.mk ("expand") [("macro", "nope")] none []]) =
      .error (unknownMacroMsg ("nope") []) := by
  have h2 := c4_placeholder_error_amended.2.1
    (fun c => expandLoopF 0 [] [("@T@", "v")] c) []
    (Element.mk ("tool") [] none [Element.mk ("expand") [("macro", "nope")] none []])
    (Element.mk ("expand") [("macro", "nope")] none [])
    [0] "nope" [] (by decide) (by decide) rfl rfl
  exact ⟨h2.1, h2.2.1,
    c4_placeholder_error_amended.2.2 0 [] [("@T@", "v")] _ [0] _ (by decide) h2.1⟩

/-- A key that appears in an association list has a binding. -/
theorem pyGet_isSome_of_mem {κ α : Type} [DecidableEq κ] :
    ∀ (l : List (κ × α)) (key : κ), key ∈ l.map Prod.fst →
      (pyGet l key).isSome = true := by
  intro l key
  induction l with
  | nil => intro h; simp at h
  | cons p r ih =>
    intro h
    obtain ⟨a, b⟩ := p
    simp only [List.map_cons, List.mem_cons] at h
    rcases h with h | h
    · simp [pyGet, h]
    · by_cases hk : key = a
      · simp [pyGet, hk]
      · simp [pyGet, hk, ih h]

/-- Dict lookup over an appended pair list: when the key is bound in the
second part, the second part decides the value (later writers win). -/
theorem pyGet_pyDict_append_right {κ α : Type} [DecidableEq κ] (A B : List (κ × α))
    (key : κ) (h : key ∈ (pyDict B).map Prod.fst) :
    pyGet (pyDict (A ++ B)) key = pyGet (pyDict B) key := by
  rw [pyGet_pyDict, pyGet_pyDict, lookupLast_append]
  have hsome : (lookupLast B key).isSome = true := by
    rw [← pyGet_pyDict]
    exact pyGet_isSome_of_mem _ key h
  obtain ⟨w, hw⟩ := Option.isSome_iff_exists.mp hsome
  simp [hw]

/-- A document root whose only relevant child is a macro container with
the given children. -/
def rootWithMacros (els : List Element) : Element :=
  Element.mk ("tool") [] none [Element.mk ("macros") [] none els]

/-- The container of `rootWithMacros` is found by `root.find("macros")`. -/
theorem find_rootWithMacros (els : List Element) :
    (rootWithMacros els).find ("macros") = some (Element.mk ("macros") [] none els) :=
  rfl

/-- Claim C5: merging puts imported macro elements before embedded ones,
and the catalog dict is built with later entries overwriting earlier
ones, so for a name the document itself defines, the merged catalog
holds the definition made by the document itself, whatever the imports supplied. -/
theorem c5_local_macro_overrides_imported :
    ∀ (imported : List Element) (m : Element) (M : String),
      (some M) ∈ (macrosOfType (rootWithMacros (loadMacrosList [] m)) ("xml")
          XmlMacroDef.ofEl).map Prod.fst →
      pyGet (macrosOfType (rootWithMacros (loadMacrosList imported m)) ("xml")
          XmlMacroDef.ofEl) (some M) =
        pyGet (macrosOfType (rootWithMacros (loadMacrosList [] m)) ("xml")
          XmlMacroDef.ofEl) (some M) := by
  intro imported m M hmem
  simp only [macrosOfType, find_rootWithMacros, loadMacrosList, List.nil_append]
      at hmem ⊢
  have hsplit :
      ((Element.mk ("macros") [] none (imported ++ loadEmbeddedMacros m)).findall
          ("macro")).filter (fun el => el.get ("type") = some ("xml")) =
        ((Element.mk ("macros") [] none imported).findall ("macro")).filter
            (fun el => el.get ("type") = some ("xml")) ++
          ((Element.mk ("macros") [] none (loadEmbeddedMacros m)).findall
              ("macro")).filter (fun el => el.get ("type") = some ("xml")) := by
    simp [Element.findall, Element.children, List.filter_append]
  rw [hsplit, List.map_append]
  exact pyGet_pyDict_append_right _ _ (some M) hmem

/-- Witness for C5: a document defining macro `M` and importing a file
that also defines `M` ends up with its own `M` in the catalog. -/
theorem c5_local_macro_overrides_imported_witness :
    pyGet (macrosOfType (rootWithMacros (loadMacrosList
        [Element.mk ("macro") [("name", "M"), ("type", "xml")] (some ("imported")) []]
        (Element.mk ("macros") [] none
          [Element.mk ("macro") [("name", "M"), ("type", "xml")] (some ("local")) []])))
        ("xml") XmlMacroDef.ofEl) (some ("M")) =
      pyGet (macrosOfType (rootWithMacros (loadMacrosList []
        (Element.mk ("macros") [] none
          [Element.mk ("macro") [("name", "M"), ("type", "xml")] (some ("local")) []])))
        ("xml") XmlMacroDef.ofEl) (some ("M")) :=
  c5_local_macro_overrides_imported
    [Element.mk ("macro") [("name", "M"), ("type", "xml")] (some ("imported")) []]
    (Element.mk ("macros") [] none
      [Element.mk ("macro") [("name", "M"), ("type", "xml")] (some ("local")) []])
    "M" (by decide)

/-- An import declaration with the given literal path text. -/
def mkImportEl (p : String) : Element := Element.mk ("import") [] (some p) []

/-- Claim C9: `imported_macro_paths` on a raw root returns exactly the
literal text of the `import` children of the macro container, in
declaration order and unresolved (no recursion into files, no mutation —
the function is a pure read); with no container it returns the empty
list. -/
theorem c9_imported_macro_paths :
    (∀ root : Element, root.find ("macros") = none → importedMacroPaths root = [])
    ∧ (∀ (tg : String) (at1 : List (String × String)) (x1 : Option String)
        (ma : List (String × String)) (mx : Option String) (cs rest : List Element),
        importedMacroPaths
            (Element.mk tg at1 x1 (Element.mk ("macros") ma mx cs :: rest)) =
          (cs.filter (fun c => c.tag = "import")).map Element.text)
    ∧ (∀ (ps : List String) (extras : List Element),
        (∀ c ∈ extras, ¬ c.tag = "import") →
        ((ps.map mkImportEl ++ extras).filter (fun c => c.tag = "import")).map
            Element.text = ps.map some) := by
  refine ⟨?_, ?_, ?_⟩
  · intro root h
    simp [importedMacroPaths, h, importedMacroPathsFromEl]
  · intro tg at1 x1 ma mx cs rest
    have hfind : (Element.mk tg at1 x1
        (Element.mk ("macros") ma mx cs :: rest)).find ("macros") =
        some (Element.mk ("macros") ma mx cs) := by
      simp [Element.find, Element.children, List.find?_cons, Element.tag]
    rw [importedMacroPaths, hfind]
    simp [importedMacroPathsFromEl, Element.findall, Element.children]
  · intro ps extras h
    induction ps with
    | nil =>
      have : extras.filter (fun c => c.tag = "import") = [] := by
        apply List.filter_eq_nil_iff.mpr
        intro a ha
        simpa using h a ha
      simp [this]
    | cons p ps ih =>
      simp only [List.map_cons, List.cons_append, List.filter_cons, List.filter_append,
        List.map_append] at ih ⊢
      have htag : decide ((mkImportEl p).tag = "import") = true := rfl
      rw [htag]
      simp [mkImportEl, Element.text, ih]

/-- Witness for C9 at a concrete document: two imports around an
embedded macro definition, and a container-less root. -/
theorem c9_imported_macro_paths_witness :
    importedMacroPaths (Element.mk ("tool") [] none []) = []
    ∧ importedMacroPaths (Element.mk ("tool") [] none
        [Element.mk ("macros") [] none
          (["common.xml", "more.xml"].map mkImportEl ++
            [Element.mk ("xml") [("name", "m")] none []])]) =
      [some ("common.xml"), some ("more.xml")] := by
  constructor
  · exact c9_imported_macro_paths.1 (Element.mk ("tool") [] none []) rfl
  · exact (c9_imported_macro_paths.2.1 ("tool") [] none [] none
        (["common.xml", "more.xml"].map mkImportEl ++
          [Element.mk ("xml") [("name", "m")] none []]) []).trans
      (c9_imported_macro_paths.2.2 ["common.xml", "more.xml"]
        [Element.mk ("xml") [("name", "m")] none []] (by decide))

/-- Shape of a successful `load_with_references` run: the returned tree
is the token-substituted pruning of the fully macro-expanded tree, and
the returned paths are whatever import resolution produced. -/
theorem loadWithRefs_ok_shape (fuel : Nat) (els : List Element) (ps : List String)
    (root : Element) (out : Element × Option (List String))
    (hok : loadWithRefsModel fuel els ps root = .ok out) :
    ∃ (tokens : List (String × String)) (root2 : Element),
      pipelineTokensOf (importMacrosModel els ps root).1 = .ok tokens ∧
        out = (expandTokensForEl (removeNonTemplateEl root2) tokens,
          (importMacrosModel els ps root).2) := by
  simp only [loadWithRefsModel] at hok
  cases h1 : pipelineTokensOf (importMacrosModel els ps root).1 with
  | error msg =>
    rw [h1] at hok
    exact absurd hok (by simp)
  | ok tokens =>
    rw [h1] at hok
    dsimp only at hok
    split at hok
    · exact absurd hok (by simp)
    · next e2 heq =>
        split at hok
        · exact absurd hok (by simp)
        · injection hok with hh
          exact ⟨tokens, e2, rfl, hh.symm⟩

/-- Claim C6 counterexample: a document with no macro container but with
a stray non-template `macro` element is changed by `load` (the element is
pruned), and `load_with_references` returns `None` for the import paths,
not an empty list. -/
theorem c6_no_container_counterexample :
    loadWithRefsModel 1 [] []
        (Element.mk ("tool") [] none [Element.mk ("macro") [("type", "xml")] none []]) =
      .ok (Element.mk ("tool") [] none [], none)
    ∧ (Element.mk ("tool") [] none [] : Element) ≠
        Element.mk ("tool") [] none [Element.mk ("macro") [("type", "xml")] none []]
    ∧ (none : Option (List String)) ≠ some [] := by
  exact ⟨by decide, by decide, by decide⟩

/-- Claim C6 as amended: for a document whose root element is not itself
macro-tagged, with no macro container and no `macro`-tagged element
anywhere below the root, `load_with_references` returns the tree
unchanged, and its second component is Python `None` (no import list at
all), not an empty list.  (A macro-tagged non-template root instead
crashes the source with an AttributeError in the pruning loop, which the
model reproduces as an error.) -/
theorem c6_no_container_amended :
    ∀ (fuel : Nat) (els : List Element) (ps : List String) (root : Element),
      root.find ("macros") = none → ¬ root.tag = "macro" →
      treeNoTagBelow ("macro") root = true →
      loadWithRefsModel fuel els ps root = .ok (root, none) := by
  intro fuel els ps root h1 h0 h2
  have himp : importMacrosModel els ps root = (root, none) := by
    simp [importMacrosModel, h1]
  have htok : pipelineTokensOf root = .ok [] := by
    simp [pipelineTokensOf, macrosOfType, h1, namedList, expandNestedTokens, nestedOuter]
  have hmac : (macrosOfType root ("xml") XmlMacroDef.ofEl : Catalog) = [] := by
    simp [macrosOfType, h1]
  simp [loadWithRefsModel, himp, htok, hmac, h0, removeNonTemplateEl_id root h2,
    expandTokensForEl_nil]

/-- Witness for the amended C6 at a concrete container-less document. -/
theorem c6_no_container_amended_witness :
    loadWithRefsModel 0 [yieldEl] ["lib.xml"]
        (Element.mk ("tool") [] none [Element.mk ("body") [] (some ("x")) []]) =
      .ok (Element.mk ("tool") [] none [Element.mk ("body") [] (some ("x")) []], none) :=
  c6_no_container_amended 0 [yieldEl] ["lib.xml"]
    (Element.mk ("tool") [] none [Element.mk ("body") [] (some ("x")) []])
    (by decide) (by decide) (by decide)

/-- The C8 counterexample document: a template-kind macro definition
nested inside an xml-kind macro definition. -/
def c8Root : Element :=
  Element.mk ("tool") [] none
    [Element.mk ("macros") [] none
      [Element.mk ("macro") [("name", "m"), ("type", "xml")] none
        [Element.mk ("macro") [("name", "t"), ("type", "template")] (some ("payload")) []]]]

/-- Claim C8 counterexample: `c8Root` contains a template-kind macro
element, yet after `load_with_references` completes no macro element at
all remains — the template macro was removed together with its enclosing
non-template macro, so not every template-kind macro element is
retained. -/
theorem c8_finalizer_counterexample :
    loadWithRefsModel 1 [] [] c8Root =
      .ok (Element.mk ("tool") [] none [Element.mk ("macros") [] none []], some [])
    ∧ treeNoTagBelow ("macro")
        (Element.mk ("tool") [] none [Element.mk ("macros") [] none []]) = true := by
  exact ⟨by decide, by decide⟩

/-- Claim C8 as amended: after a successful `load_with_references` run,
no macro element whose kind is not `template` remains anywhere in the
returned tree (provided no token name is a substring of `template`, since
the final token pass rewrites attribute values); the full transitive list
of import paths is returned whenever a macro container is present; and
the pruning step keeps every template-kind macro child of a surviving
element (template macros nested inside removed non-template macros are
not retained, as the counterexample shows). -/
theorem c8_finalizer_amended :
    (∀ (fuel : Nat) (els : List Element) (ps : List String) (root tree2 : Element)
        (paths : Option (List String)) (tokens : List (String × String)),
        pipelineTokensOf (importMacrosModel els ps root).1 = .ok tokens →
        (∀ kv ∈ tokens, pyIn kv.1 ("template") = false) →
        loadWithRefsModel fuel els ps root = .ok (tree2, paths) →
        noBadMacroBelow tree2 = true)
    ∧ (∀ (fuel : Nat) (els : List Element) (ps : List String) (root tree2 : Element)
        (paths : Option (List String)) (m : Element),
        root.find ("macros") = some m →
        loadWithRefsModel fuel els ps root = .ok (tree2, paths) →
        paths = some ps)
    ∧ (∀ (e c : Element), c ∈ e.children → c.tag = "macro" →
        c.get ("type") = some ("template") →
        removeNonTemplateEl c ∈ (removeNonTemplateEl e).children) := by
  refine ⟨?_, ?_, ?_⟩
  · intro fuel els ps root tree2 paths tokens htok hcond hok
    obtain ⟨tokens2, root2, htok2, hshape⟩ :=
      loadWithRefs_ok_shape fuel els ps root (tree2, paths) hok
    rw [htok] at htok2
    have htoks : tokens2 = tokens := by
      injection htok2 with hh
      exact hh.symm
    subst htoks
    have htree : tree2 = expandTokensForEl (removeNonTemplateEl root2) tokens2 := by
      have := congrArg Prod.fst hshape
      simpa using this
    rw [htree]
    exact noBad_expandTokensEl (removeNonTemplateEl root2) tokens2 hcond
      (noBad_removeEl root2)
  · intro fuel els ps root tree2 paths m hfind hok
    obtain ⟨tokens2, root2, htok2, hshape⟩ :=
      loadWithRefs_ok_shape fuel els ps root (tree2, paths) hok
    have hpaths : paths = (importMacrosModel els ps root).2 := by
      have := congrArg Prod.snd hshape
      simpa using this
    rw [hpaths]
    simp [importMacrosModel, hfind]
  · intro e c hc htag hty
    cases e with
    | mk t a x cs =>
      simp only [removeNonTemplateEl, Element.children] at hc ⊢
      exact removeNonTemplateList_mem cs c hc htag hty

/-- A well-behaved document for the C8 witness: a template macro and an
xml macro side by side in the container. -/
def c8GoodRoot : Element :=
  Element.mk ("tool") [] none
    [Element.mk ("macros") [] none
      [Element.mk ("macro") [("name", "t"), ("type", "template")] (some ("payload")) [],
       Element.mk ("macro") [("name", "m"), ("type", "xml")] none []]]

/-- Witness for the amended C8: on `c8GoodRoot` the run succeeds, the
returned tree holds no non-template macro element, the path list is
returned, and the template macro child survives pruning. -/
theorem c8_finalizer_amended_witness :
    noBadMacroBelow (Element.mk ("tool") [] none
      [Element.mk ("macros") [] none
        [Element.mk ("macro") [("name", "t"), ("type", "template")]
          (some ("payload")) []]]) = true
    ∧ (some [] : Option (List String)) = some ([] : List String)
    ∧ removeNonTemplateEl
          (Element.mk ("macro") [("name", "t"), ("type", "template")]
            (some ("payload")) []) ∈
        (removeNonTemplateEl (Element.mk ("macros") [] none
          [Element.mk ("macro") [("name", "t"), ("type", "template")] (some ("payload")) [],
           Element.mk ("macro") [("name", "m"), ("type", "xml")] none []])).children := by
  refine ⟨?_, ?_, ?_⟩
  · exact c8_finalizer_amended.1 1 [] [] c8GoodRoot
      (Element.mk ("tool") [] none
        [Element.mk ("macros") [] none
          [Element.mk ("macro") [("name", "t"), ("type", "template")]
            (some ("payload")) []]])
      (some []) [] (by decide) (by simp) (by decide)
  · exact c8_finalizer_amended.2.1 1 [] [] c8GoodRoot
      (Element.mk ("tool") [] none
        [Element.mk ("macros") [] none
          [Element.mk ("macro") [("name", "t"), ("type", "template")]
            (some ("payload")) []]])
      (some [])
      (Element.mk ("macros") [] none
        [Element.mk ("macro") [("name", "t"), ("type", "template")] (some ("payload")) [],
         Element.mk ("macro") [("name", "m"), ("type", "xml")] none []])
      (by decide) (by decide)
  · exact c8_finalizer_amended.2.2
      (Element.mk ("macros") [] none
        [Element.mk ("macro") [("name", "t"), ("type", "template")] (some ("payload")) [],
         Element.mk ("macro") [("name", "m"), ("type", "xml")] none []])
      (Element.mk ("macro") [("name", "t"), ("type", "template")] (some ("payload")) [])
      (by decide) (by decide) (by decide)
